import Mathlib

/-!
Shallow embedding of the event-registration and judging application
(`src/app.py`): participant bulk import (`validate_excel_data`,
`admin_students`), evaluation submission (`staff_evaluate`), the
pre-submission lookup probe (`get_student`) and reporting
(`admin_reports`).

Modelling conventions:
* A spreadsheet cell is `Option String`: `none` stands for a Python-falsy
  cell value (absent, `None`, empty string), `some s` for a truthy value
  whose `str()` rendering is `s`.
* Numeric scores (Python floats obtained from JSON numbers) are modelled
  as rationals `ℚ`; the claims under study only involve exact sums,
  products and comparisons.
* The database tables are lists of records; SQLAlchemy `filter_by`
  queries become list searches on the corresponding fields.
* The QR image bytes produced by the external `qrcode` library are not
  modelled; no claim depends on their content.
-/

namespace App

/-- Python whitespace characters recognised by `str.strip()`
(restricted to the ASCII ones that can occur in spreadsheet text). -/
def pyIsSpace (c : Char) : Bool :=
  c == ' ' || c == '\t' || c == '\n' || c == '\r' || c == '\x0b' || c == '\x0c'

/-- Python `str.strip()`: drop leading and trailing whitespace. -/
def pyStrip (s : String) : String :=
  ⟨((s.data.dropWhile pyIsSpace).reverse.dropWhile pyIsSpace).reverse⟩

/-- Python `str.lower()` (ASCII range, as used by the app's data). -/
def pyLower (s : String) : String :=
  ⟨s.data.map Char.toLower⟩

/-- Python `str.replace(a, b)` for single-character patterns, the only
form used by the source (`replace(' ', '_')` and `replace('_', ' ')`). -/
def pyReplaceChar (s : String) (a b : Char) : String :=
  ⟨s.data.map (fun c => if c == a then b else c)⟩

/-- Does `p` occur at the start of `l`? (helper for substring search). -/
def listStarts : List Char → List Char → Bool
  | [], _ => true
  | _ :: _, [] => false
  | a :: as, b :: bs => a == b && listStarts as bs

/-- Does `pat` occur as a contiguous sublist of `l`? -/
def listHasSub (pat : List Char) : List Char → Bool
  | [] => pat.isEmpty
  | c :: rest => listStarts pat (c :: rest) || listHasSub pat rest

/-- Python `pat in s` substring containment. -/
def strContains (s pat : String) : Bool :=
  listHasSub pat.data s.data

/-- Helper for Python `str.title()`: uppercase a cased character that
follows a non-cased character, lowercase the others. The boolean records
whether the previous character was alphabetic. -/
def titleAux : Bool → List Char → List Char
  | _, [] => []
  | prev, c :: cs =>
    let c' := if c.isAlpha then (if prev then c.toLower else c.toUpper) else c
    c' :: titleAux c.isAlpha cs

/-- Python `str.title()`. -/
def pyTitle (s : String) : String :=
  ⟨titleAux false s.data⟩

/-- `category.replace('_', ' ').title()`, the display rendering of a
category name used in flash messages and the probe response. -/
def displayCategory (c : String) : String :=
  pyTitle (pyReplaceChar c '_' ' ')

/-- A participant record (`Student` model). The `qr_code` image bytes
are produced by an external library and are not modelled. -/
structure Student where
  student_id : String
  name : String
  college : String
  phone : String
  category : Option String
  deriving DecidableEq, Repr

/-- An evaluation record (`Evaluation` model). `criteria_scores` is kept
as the parsed criterion-name ↦ score mapping (the source stores its JSON
text). The `evaluated_at` timestamp is not modelled. -/
structure Evaluation where
  student_id : String
  staff_id : Nat
  category : String
  score : ℚ
  max_score : ℚ
  criteria_scores : List (String × ℚ)
  comments : String
  deriving DecidableEq, Repr

/-- Text normalisation applied to the category cell:
`str(row[4]).strip().lower().replace(' ', '_')`. -/
def normalizeCell (c : String) : String :=
  pyReplaceChar (pyLower (pyStrip c)) ' ' '_'

/-- Matching of the normalised category text against the closed category
set, exactly or by substring heuristics (src/app.py lines 157-164). -/
def matchCategory (cat : String) : Option String :=
  if cat == "robo_race" || cat == "robo_sumo" || cat == "working_model" then
    some cat
  else if strContains cat "race" then some "robo_race"
  else if strContains cat "sumo" then some "robo_sumo"
  else if strContains cat "working" || strContains cat "model" then some "working_model"
  else none

/-- Category-cell handling from `validate_excel_data` (src/app.py lines
154-164): normalise the text, then match the closed category set. -/
def normalizeCategory (c : String) : Option String :=
  matchCategory (normalizeCell c)

/-- The sentinel placeholder identifiers rejected by `validate_excel_data`. -/
def sentinelIds : List String :=
  ["none", "null", "nan", "", "id", "student id"]

/-- An optional trailing cell as stored text: trimmed when populated
(`str(row[i]).strip() if len(row) > i and row[i] else ""`), else `""`. -/
def cellText : Option String → String
  | some c => pyStrip c
  | none => ""

/-- The category derived from the optional fifth cell: normalised and
matched when the cell is populated, unset otherwise. -/
def cellCategory : Option String → Option String
  | some c => normalizeCategory c
  | none => none

/-- `validate_excel_data(row)` (src/app.py lines 137-172): validate and
clean one spreadsheet row into a participant record, or `none` to skip. -/
def validate_excel_data (row : List (Option String)) : Option Student :=
  if row.length < 2 then none
  else
    match (row.getD 0 none).map pyStrip, (row.getD 1 none).map pyStrip with
    | some sid, some nm =>
      if sid == "" || nm == "" then none
      else if sentinelIds.contains (pyLower sid) then none
      else some ⟨sid, nm, cellText (row.getD 2 none), cellText (row.getD 3 none),
        cellCategory (row.getD 4 none)⟩
    | _, _ => none

/-! ## Bulk import pipeline (`admin_students`, src/app.py lines 345-446) -/

/-- One spreadsheet data row as seen by the import loop. `raises = true`
tags a row whose processing raises an unexpected exception inside the
per-row `try` (e.g. a QR-generation or flush failure); the handler rolls
the session back, counts the row as skipped and continues. -/
structure ImportRow where
  cells : List (Option String)
  raises : Bool
  deriving DecidableEq, Repr

/-- The state of one import run. `committed` is the database content
(records visible after a commit); `pending` holds records added to
the session since the last commit — SQLAlchemy's autoflush makes them
visible to the duplicate-check query, and `rollback()` discards them. -/
structure ImportState where
  committed : List Student
  pending : List Student
  added : Nat
  skipped : Nat
  duplicates : Nat
  deriving DecidableEq, Repr

/-- All records visible to the import session's queries: the committed
database content plus the session's own pending (autoflushed) rows. -/
def ImportState.visible (st : ImportState) : List Student :=
  st.committed ++ st.pending

/-- Is a participant with this external identifier visible to the
session's duplicate-check query (`filter_by(student_id=...)`)? -/
def ImportState.hasStudent (st : ImportState) (sid : String) : Bool :=
  st.visible.any (fun s => s.student_id == sid)

/-- One iteration of the import loop (src/app.py lines 367-423): skip
empty rows, validate, count duplicates, otherwise add the record and
commit every time the `added` counter reaches a multiple of 10. A row
tagged `raises` takes the `except` branch: rollback and count skipped. -/
def processRow (st : ImportState) (row : ImportRow) : ImportState :=
  if row.raises then
    { st with pending := [], skipped := st.skipped + 1 }
  else if row.cells.all (fun c => c.isNone) then
    { st with skipped := st.skipped + 1 }
  else
    match validate_excel_data row.cells with
    | none => { st with skipped := st.skipped + 1 }
    | some data =>
      if st.hasStudent data.student_id then
        { st with duplicates := st.duplicates + 1 }
      else
        if (st.added + 1) % 10 == 0 then
          { st with committed := st.committed ++ (st.pending ++ [data]),
                    pending := [], added := st.added + 1 }
        else
          { st with pending := st.pending ++ [data], added := st.added + 1 }

/-- The import loop over all data rows (header row already dropped). -/
def importLoop (st : ImportState) : List ImportRow → ImportState
  | [] => st
  | r :: rs => importLoop (processRow st r) rs

/-- A full `admin_students` import run: fresh session over the current
registry, the row loop, then the final commit. -/
def admin_students (registry : List Student) (rows : List ImportRow) : ImportState :=
  let final := importLoop ⟨registry, [], 0, 0, 0⟩ rows
  { final with committed := final.committed ++ final.pending, pending := [] }

/-- A row that yields a participant record (neither empty nor invalid). -/
def ImportRow.isValid (row : ImportRow) : Bool :=
  (validate_excel_data row.cells).isSome

/-! ## Evaluation submission (`staff_evaluate`, src/app.py lines 572-625) -/

/-- Outcome of one evaluation submission, as flashed to the caller.
`error` is the catch-all `except` branch (message built from the raised
exception), which also rolls the session back. -/
inductive EvalOutcome where
  | success
  | notFound
  | categoryMismatch (student_category_display : String)
  | alreadyEvaluated
  | error
  deriving DecidableEq, Repr

/-- One submission request: the logged-in staff's id and bound category,
plus the posted form fields (parsed criteria mapping and comments). -/
structure Submission where
  staff_id : Nat
  category : String
  student_id : String
  criteria : List (String × ℚ)
  comments : String
  deriving DecidableEq, Repr

/-- `staff_evaluate` POST handler (src/app.py lines 580-623): compute
total and max score, resolve the participant, check category and
duplicate evaluation, then persist. When the participant's `category`
column is NULL, the mismatch flash message evaluates
`student.category.replace(…)` on `None`, raising `AttributeError`;
the catch-all turns this into the `error` outcome with a rollback. -/
def staff_evaluate (students : List Student) (ledger : List Evaluation)
    (sub : Submission) : EvalOutcome × List Evaluation :=
  let total_score : ℚ := (sub.criteria.map Prod.snd).sum
  let max_score : ℚ := sub.criteria.length * 10
  match students.find? (fun s => s.student_id == sub.student_id) with
  | none => (.notFound, ledger)
  | some student =>
    if student.category == some sub.category then
      if ledger.any (fun e => e.student_id == sub.student_id && e.category == sub.category) then
        (.alreadyEvaluated, ledger)
      else
        (.success, ledger ++ [⟨sub.student_id, sub.staff_id, sub.category,
          total_score, max_score, sub.criteria, sub.comments⟩])
    else
      match student.category with
      | none => (.error, ledger)
      | some sc => (.categoryMismatch (displayCategory sc), ledger)

/-- A sequence of submissions applied to the ledger (participant
registry fixed across the sequence). -/
def runSubmissions (students : List Student) (ledger : List Evaluation) :
    List Submission → List Evaluation
  | [] => ledger
  | sub :: rest => runSubmissions students (staff_evaluate students ledger sub).2 rest

/-! ## Lookup probe (`get_student`, src/app.py lines 627-662) -/

/-- The JSON payload returned by the probe. `probeError` is the `except`
branch `{'error': …, 'exists': False}`; it is reached when the found
participant's NULL category makes the display rendering raise. -/
inductive ProbeResult where
  | notExists
  | wrongCategory (student_category_display staff_category_display : String)
  | found (name college phone : String) (category : Option String)
      (already_evaluated : Bool)
  | probeError
  deriving DecidableEq, Repr

/-- `get_student` handler: resolve the participant, compare categories,
report display fields and the already-evaluated flag. Read-only. -/
def get_student (students : List Student) (ledger : List Evaluation)
    (staff_category : String) (student_id : String) : ProbeResult :=
  match students.find? (fun s => s.student_id == student_id) with
  | none => .notExists
  | some student =>
    if student.category == some staff_category then
      let evaluated := ledger.any
        (fun e => e.student_id == student_id && e.category == staff_category)
      .found student.name student.college student.phone student.category evaluated
    else
      match student.category with
      | none => .probeError
      | some sc => .wrongCategory (displayCategory sc) (displayCategory staff_category)

/-- The `exists` field of the probe's JSON response. -/
def ProbeResult.reportsExists : ProbeResult → Bool
  | .notExists => false
  | .probeError => false
  | _ => true

/-! ## Reporting (`admin_reports`, src/app.py lines 463-503) -/

/-- Per-category summary statistics. -/
structure CatStats where
  count : Nat
  avg : ℚ
  max : ℚ
  min : ℚ
  deriving DecidableEq, Repr

/-- The evaluation list retrieved for a report filter: everything for
`"all"`, otherwise `filter_by(category=…)`. -/
def admin_reports_evaluations (ledger : List Evaluation) (category : String) :
    List Evaluation :=
  if category == "all" then ledger
  else ledger.filter (fun e => e.category == category)

/-- The per-category statistics block of `admin_reports`: count, average,
max and min of `score` over that category's evaluations, all zero when
the category has none. -/
def categoryStats (ledger : List Evaluation) (cat : String) : CatStats :=
  match ledger.filter (fun e => e.category == cat) with
  | [] => ⟨0, 0, 0, 0⟩
  | e :: es =>
    let scores := (e :: es).map Evaluation.score
    { count := (e :: es).length
      avg := scores.sum / scores.length
      max := (es.map Evaluation.score).foldl Max.max e.score
      min := (es.map Evaluation.score).foldl Min.min e.score }

/-! ## Predicates used by the statements -/

/-- The core ledger invariant: no two evaluation records share the same
(participant identifier, category) pair. -/
def atMostOnePerPair (ledger : List Evaluation) : Prop :=
  ledger.Pairwise (fun a b => ¬(a.student_id = b.student_id ∧ a.category = b.category))

/-- Every ledger entry corresponds to an existing participant of that
category (true of every ledger built by `runSubmissions` over a fixed
registry, since submissions check both before inserting). -/
def ledgerConsistent (students : List Student) (ledger : List Evaluation) : Prop :=
  ∀ e ∈ ledger, ∃ s ∈ students, s.student_id = e.student_id ∧ s.category = some e.category

/-- Number of rows of a sheet that validate into a participant record. -/
def validCount (rows : List ImportRow) : Nat :=
  rows.countP (fun r => r.isValid)

/-! ## Theorems -/

lemma matchCategory_race (cat : String) (h : strContains cat "race" = true) :
    matchCategory cat = some "robo_race" := by
  unfold matchCategory
  by_cases h1 : cat = "robo_race"
  · subst h1; simp
  · by_cases h2 : cat = "robo_sumo"
    · subst h2; exact absurd h (by decide)
    · by_cases h3 : cat = "working_model"
      · subst h3; exact absurd h (by decide)
      · simp [h1, h2, h3, h]

lemma matchCategory_sumo (cat : String) (hr : strContains cat "race" = false)
    (h : strContains cat "sumo" = true) :
    matchCategory cat = some "robo_sumo" := by
  unfold matchCategory
  by_cases h1 : cat = "robo_race"
  · subst h1; exact absurd h (by decide)
  · by_cases h2 : cat = "robo_sumo"
    · subst h2; simp
    · by_cases h3 : cat = "working_model"
      · subst h3; exact absurd h (by decide)
      · simp [h1, h2, h3, h, hr]

lemma matchCategory_working (cat : String) (hr : strContains cat "race" = false)
    (hs : strContains cat "sumo" = false)
    (h : strContains cat "working" = true ∨ strContains cat "model" = true) :
    matchCategory cat = some "working_model" := by
  unfold matchCategory
  by_cases h1 : cat = "robo_race"
  · subst h1; exact absurd hr (by decide)
  · by_cases h2 : cat = "robo_sumo"
    · subst h2; exact absurd hs (by decide)
    · by_cases h3 : cat = "working_model"
      · subst h3; simp
      · rcases h with h | h <;> simp [h1, h2, h3, h, hr, hs]

lemma matchCategory_none (cat : String) (hr : strContains cat "race" = false)
    (hs : strContains cat "sumo" = false) (hw : strContains cat "working" = false)
    (hm : strContains cat "model" = false) :
    matchCategory cat = none := by
  unfold matchCategory
  by_cases h1 : cat = "robo_race"
  · subst h1; exact absurd hr (by decide)
  · by_cases h2 : cat = "robo_sumo"
    · subst h2; exact absurd hs (by decide)
    · by_cases h3 : cat = "working_model"
      · subst h3; exact absurd hw (by decide)
      · simp [h1, h2, h3, hr, hs, hw, hm]

/-- Any record produced by `validate_excel_data` has the shape dictated
by the row's cells: trimmed identifier and name from the two leading
cells, `cellText` of cells 3-4, `cellCategory` of cell 5. -/
lemma validate_shape (cells : List (Option String)) (d : Student)
    (h : validate_excel_data cells = some d) :
    ∃ i n, cells.getD 0 none = some i ∧ cells.getD 1 none = some n ∧
      d = ⟨pyStrip i, pyStrip n, cellText (cells.getD 2 none),
           cellText (cells.getD 3 none), cellCategory (cells.getD 4 none)⟩ := by
  unfold validate_excel_data at h
  split at h
  · exact absurd h (by simp)
  · cases h0 : cells.getD 0 none with
    | none => rw [h0] at h; simp at h
    | some i =>
      cases h1 : cells.getD 1 none with
      | none => rw [h0, h1] at h; simp at h
      | some n =>
        rw [h0, h1] at h
        simp only [Option.map_some'] at h
        split_ifs at h with hif1 hif2
        exact ⟨i, n, rfl, rfl, (Option.some.inj h).symm⟩

/-- C4: category text is normalised by stripping, lower-casing and
replacing spaces with underscores, then matched exactly against the
closed set or by the substring heuristics `race` → `robo_race`,
`sumo` → `robo_sumo`, `working`/`model` → `working_model`; the inputs
"Robo Race", "robo-race", "SUMO" and "Working Model" map to their
categories, and unmatched or absent category text leaves the produced
record's category unset. -/
theorem C4_category_normalization :
    normalizeCategory "Robo Race" = some "robo_race" ∧
    normalizeCategory "robo-race" = some "robo_race" ∧
    normalizeCategory "SUMO" = some "robo_sumo" ∧
    normalizeCategory "Working Model" = some "working_model" ∧
    normalizeCategory "chess club" = none ∧
    (∀ c, strContains (normalizeCell c) "race" = true →
      normalizeCategory c = some "robo_race") ∧
    (∀ c, strContains (normalizeCell c) "race" = false →
      strContains (normalizeCell c) "sumo" = true →
      normalizeCategory c = some "robo_sumo") ∧
    (∀ c, strContains (normalizeCell c) "race" = false →
      strContains (normalizeCell c) "sumo" = false →
      (strContains (normalizeCell c) "working" = true ∨
        strContains (normalizeCell c) "model" = true) →
      normalizeCategory c = some "working_model") ∧
    (∀ c, strContains (normalizeCell c) "race" = false →
      strContains (normalizeCell c) "sumo" = false →
      strContains (normalizeCell c) "working" = false →
      strContains (normalizeCell c) "model" = false →
      normalizeCategory c = none) ∧
    (∀ cells d, validate_excel_data cells = some d → cells.getD 4 none = none →
      d.category = none) := by
  refine ⟨by decide, by decide, by decide, by decide, by decide, ?_, ?_, ?_, ?_, ?_⟩
  · intro c h; exact matchCategory_race _ h
  · intro c hr h; exact matchCategory_sumo _ hr h
  · intro c hr hs h; exact matchCategory_working _ hr hs h
  · intro c hr hs hw hm; exact matchCategory_none _ hr hs hw hm
  · intro cells d h h4
    obtain ⟨i, n, _, _, hd⟩ := validate_shape cells d h
    rw [hd, h4]
    rfl

/-- Witness for C4: the substring heuristic clause applied to the
concrete input "robo-race". -/
theorem C4_witness : normalizeCategory "robo-race" = some "robo_race" :=
  C4_category_normalization.2.2.2.2.2.1 "robo-race" (by decide)

lemma not_length_lt_two_of_getD1 (l : List (Option String)) (n : String)
    (h : l.getD 1 none = some n) : ¬l.length < 2 := by
  match l with
  | [] => simp [List.getD] at h
  | [a] => simp [List.getD] at h
  | a :: b :: t => simp

/-- C6: an entirely empty row is counted as skipped with no record
created; a row is rejected when it has fewer than 2 cells, when either
leading cell is unpopulated, when the trimmed identifier or name is
empty, or when the identifier case-insensitively matches a sentinel
placeholder; otherwise the record carries the trimmed identifier and
name, and cells 3-5 map to affiliation (college), phone and category. -/
theorem C6_row_validation :
    (∀ st row, row.raises = false → row.cells.all (fun c => c.isNone) = true →
      processRow st row = { st with skipped := st.skipped + 1 }) ∧
    (∀ cells, cells.length < 2 → validate_excel_data cells = none) ∧
    (∀ cells, cells.getD 0 none = none → validate_excel_data cells = none) ∧
    (∀ cells, cells.getD 1 none = none → validate_excel_data cells = none) ∧
    (∀ cells i, cells.getD 0 none = some i → pyStrip i = "" →
      validate_excel_data cells = none) ∧
    (∀ cells n, cells.getD 1 none = some n → pyStrip n = "" →
      validate_excel_data cells = none) ∧
    (∀ cells i, cells.getD 0 none = some i →
      sentinelIds.contains (pyLower (pyStrip i)) = true →
      validate_excel_data cells = none) ∧
    (∀ cells i n, cells.getD 0 none = some i → cells.getD 1 none = some n →
      pyStrip i ≠ "" → pyStrip n ≠ "" →
      sentinelIds.contains (pyLower (pyStrip i)) = false →
      validate_excel_data cells =
        some ⟨pyStrip i, pyStrip n, cellText (cells.getD 2 none),
          cellText (cells.getD 3 none), cellCategory (cells.getD 4 none)⟩) := by
  refine ⟨?_, ?_, ?_, ?_, ?_, ?_, ?_, ?_⟩
  · intro st row h1 h2
    unfold processRow
    simp [h1, h2]
  · intro cells h
    unfold validate_excel_data
    rw [if_pos h]
  · intro cells h
    unfold validate_excel_data
    split
    · rfl
    · rw [h]; cases h1 : cells.getD 1 none <;> simp [h1]
  · intro cells h
    unfold validate_excel_data
    split
    · rfl
    · rw [h]; cases h0 : cells.getD 0 none <;> simp [h0]
  · intro cells i h hi
    unfold validate_excel_data
    split
    · rfl
    · rw [h]
      cases h1 : cells.getD 1 none <;> simp [hi]
  · intro cells n h hn
    unfold validate_excel_data
    split
    · rfl
    · rw [h]
      cases h0 : cells.getD 0 none <;> simp [hn]
  · intro cells i h hs
    have hs' : pyLower (pyStrip i) ∈ sentinelIds := by simpa using hs
    unfold validate_excel_data
    split
    · rfl
    · rw [h]
      cases h1 : cells.getD 1 none <;> simp [hs']
  · intro cells i n h0 h1 hi hn hs
    have hs' : pyLower (pyStrip i) ∉ sentinelIds := by simpa using hs
    unfold validate_excel_data
    rw [if_neg (not_length_lt_two_of_getD1 cells n h1), h0, h1]
    simp [hi, hn, hs']

/-- Witness for C6: the positive clause applied to a concrete row. -/
theorem C6_witness :
    validate_excel_data
        [some " S001 ", some "Jane Doe", some "MIT", some "555", some "Robo Race"] =
      some ⟨pyStrip " S001 ", pyStrip "Jane Doe", cellText (some "MIT"),
        cellText (some "555"), cellCategory (some "Robo Race")⟩ :=
  C6_row_validation.2.2.2.2.2.2.2 _ " S001 " "Jane Doe" rfl rfl (by decide) (by decide)
    (by decide)

/-- C2 (amended): outcome analysis of one evaluation submission. Absent
participant → NotFound; participant with unset category → generic error
(the mismatch message's display rendering raises on `None`); set but
different category → CategoryMismatch; existing (identifier, category)
evaluation → AlreadyEvaluated; otherwise exactly one record is appended.
Every failure branch leaves the ledger unchanged. -/
theorem C2_submission_outcomes :
    (∀ students ledger sub,
      students.find? (fun s => s.student_id == sub.student_id) = none →
      staff_evaluate students ledger sub = (.notFound, ledger)) ∧
    (∀ students ledger sub s,
      students.find? (fun s => s.student_id == sub.student_id) = some s →
      s.category = none →
      staff_evaluate students ledger sub = (.error, ledger)) ∧
    (∀ students ledger sub s c,
      students.find? (fun s => s.student_id == sub.student_id) = some s →
      s.category = some c → c ≠ sub.category →
      staff_evaluate students ledger sub =
        (.categoryMismatch (displayCategory c), ledger)) ∧
    (∀ students ledger sub s,
      students.find? (fun s => s.student_id == sub.student_id) = some s →
      s.category = some sub.category →
      ledger.any (fun e => e.student_id == sub.student_id &&
        e.category == sub.category) = true →
      staff_evaluate students ledger sub = (.alreadyEvaluated, ledger)) ∧
    (∀ students ledger sub s,
      students.find? (fun s => s.student_id == sub.student_id) = some s →
      s.category = some sub.category →
      ledger.any (fun e => e.student_id == sub.student_id &&
        e.category == sub.category) = false →
      staff_evaluate students ledger sub = (.success,
        ledger ++ [⟨sub.student_id, sub.staff_id, sub.category,
          (sub.criteria.map Prod.snd).sum, (sub.criteria.length : ℚ) * 10,
          sub.criteria, sub.comments⟩])) := by
  refine ⟨?_, ?_, ?_, ?_, ?_⟩
  · intro students ledger sub hf
    unfold staff_evaluate
    rw [hf]
  · intro students ledger sub s hf hc
    unfold staff_evaluate
    rw [hf]
    simp [hc]
  · intro students ledger sub s c hf hc hne
    unfold staff_evaluate
    rw [hf]
    simp [hc, hne]
  · intro students ledger sub s hf hc ha
    unfold staff_evaluate
    rw [hf]
    simp [hc, ha]
  · intro students ledger sub s hf hc ha
    unfold staff_evaluate
    rw [hf]
    simp [hc, ha]

/-- Witness for C2 (amended): the success clause at a concrete input. -/
theorem C2_witness :
    staff_evaluate [⟨"S1", "Jane", "MIT", "555", some "robo_race"⟩] []
        ⟨7, "robo_race", "S1", [], "ok"⟩ =
      (.success, [] ++ [⟨"S1", 7, "robo_race",
        (([] : List (String × ℚ)).map Prod.snd).sum,
        (([] : List (String × ℚ)).length : ℚ) * 10, [], "ok"⟩]) :=
  C2_submission_outcomes.2.2.2.2 _ _ _ ⟨"S1", "Jane", "MIT", "555", some "robo_race"⟩
    (by decide) rfl rfl

/-- Counterexample to C2 as stated: a participant whose category column
is NULL exists and differs from the staff's bound category, yet the
outcome is the generic error branch, not CategoryMismatch (and not a
successful persist either) — the ledger stays unchanged. -/
theorem C2_counterexample :
    staff_evaluate [⟨"S2", "Bob", "", "", none⟩] [] ⟨7, "robo_race", "S2", [], ""⟩ =
      (.error, []) ∧
    ([⟨"S2", "Bob", "", "", none⟩] : List Student).any
      (fun s => s.student_id == "S2") = true ∧
    (∀ d, (EvalOutcome.error : EvalOutcome) ≠ .categoryMismatch d) ∧
    (EvalOutcome.error : EvalOutcome) ≠ .success := by
  refine ⟨by decide, by decide, ?_, by decide⟩
  intro d h
  exact EvalOutcome.noConfusion h

/-- C3: the created evaluation's `score` is the sum of the submitted
per-criterion values and its `max_score` is 10 times the number of
criteria; the criteria {design: 8, execution: 7} yield 15 and 20. -/
theorem C3_scores :
    (∀ students ledger sub, (staff_evaluate students ledger sub).1 = .success →
      ∃ e, (staff_evaluate students ledger sub).2 = ledger ++ [e] ∧
        e.score = (sub.criteria.map Prod.snd).sum ∧
        e.max_score = 10 * (sub.criteria.length : ℚ) ∧
        e.criteria_scores = sub.criteria) ∧
    ((staff_evaluate [⟨"S1", "Jane", "MIT", "555", some "robo_race"⟩] []
        ⟨7, "robo_race", "S1", [("design", 8), ("execution", 7)], ""⟩).2.map
          (fun e => (e.score, e.max_score)) = [((15 : ℚ), (20 : ℚ))]) := by
  constructor
  · intro students ledger sub h
    unfold staff_evaluate at h ⊢
    cases hf : students.find? (fun s => s.student_id == sub.student_id) with
    | none =>
      rw [hf] at h
      simp at h
    | some s =>
      rw [hf] at h
      by_cases hc : s.category = some sub.category
      · simp only [hc, beq_self_eq_true, if_true] at h ⊢
        by_cases ha : ledger.any (fun e => e.student_id == sub.student_id &&
            e.category == sub.category) = true
        · rw [if_pos ha] at h
          simp at h
        · rw [if_neg ha]
          refine ⟨_, rfl, rfl, ?_, rfl⟩
          simp [mul_comm]
      · have hb : (s.category == some sub.category) = false := by
          simpa using hc
        simp only [hb, Bool.false_eq_true, if_false] at h
        cases hcat : s.category with
        | none => rw [hcat] at h; simp at h
        | some c => rw [hcat] at h; simp at h
  · simp [staff_evaluate]
    norm_num

/-- Witness for C3: the general clause applied at a concrete submission. -/
theorem C3_witness :
    ∃ e, (staff_evaluate [⟨"S1", "Jane", "MIT", "555", some "robo_race"⟩] []
        ⟨7, "robo_race", "S1", [("design", 8), ("execution", 7)], ""⟩).2 = [] ++ [e] ∧
      e.score = ((([("design", (8 : ℚ)), ("execution", 7)]).map Prod.snd).sum) ∧
      e.max_score = 10 * (([("design", (8 : ℚ)), ("execution", 7)]).length : ℚ) ∧
      e.criteria_scores = [("design", (8 : ℚ)), ("execution", 7)] :=
  C3_scores.1 _ _ _ (by decide)

/-- C8 (amended): the probe reports NotFound for an absent identifier;
for an existing participant with a set category different from the
caller's it reports both display names; with the caller's category it
reports the display fields and the already-evaluated flag; a found
participant with an unset category takes the error branch (whose JSON
still reports `exists: false`). The probe returns data only and touches
no stored record. -/
theorem C8_probe_behavior :
    (∀ students ledger sc sid,
      students.find? (fun s => s.student_id == sid) = none →
      get_student students ledger sc sid = .notExists) ∧
    (∀ students ledger sc sid s c,
      students.find? (fun s => s.student_id == sid) = some s →
      s.category = some c → c ≠ sc →
      get_student students ledger sc sid =
        .wrongCategory (displayCategory c) (displayCategory sc)) ∧
    (∀ students ledger sc sid s,
      students.find? (fun s => s.student_id == sid) = some s →
      s.category = some sc →
      get_student students ledger sc sid =
        .found s.name s.college s.phone s.category
          (ledger.any (fun e => e.student_id == sid && e.category == sc))) ∧
    (∀ students ledger sc sid s,
      students.find? (fun s => s.student_id == sid) = some s →
      s.category = none →
      get_student students ledger sc sid = .probeError) := by
  refine ⟨?_, ?_, ?_, ?_⟩
  · intro students ledger sc sid hf
    unfold get_student
    rw [hf]
  · intro students ledger sc sid s c hf hc hne
    unfold get_student
    rw [hf]
    simp [hc, hne]
  · intro students ledger sc sid s hf hc
    unfold get_student
    rw [hf]
    simp [hc]
  · intro students ledger sc sid s hf hc
    unfold get_student
    rw [hf]
    simp [hc]

/-- Witness for C8 (amended): the wrong-category clause at a concrete
input. -/
theorem C8_witness :
    get_student [⟨"S1", "Jane", "MIT", "555", some "robo_race"⟩] [] "robo_sumo" "S1" =
      .wrongCategory (displayCategory "robo_race") (displayCategory "robo_sumo") :=
  C8_probe_behavior.2.1 _ _ _ _ ⟨"S1", "Jane", "MIT", "555", some "robo_race"⟩
    "robo_race" (by decide) rfl (by decide)

/-- Counterexample to C8 as stated: a participant with an unset category
exists, yet the probe's JSON reports `exists: false` (the error branch),
so the probe does not always report whether the participant exists. -/
theorem C8_counterexample :
    (get_student [⟨"S2", "Bob", "", "", none⟩] [] "robo_race" "S2").reportsExists
        = false ∧
    ([⟨"S2", "Bob", "", "", none⟩] : List Student).any
      (fun s => s.student_id == "S2") = true := by
  decide

lemma foldl_max_mem (l : List ℚ) (a : ℚ) : l.foldl Max.max a ∈ a :: l := by
  induction l generalizing a with
  | nil => simp
  | cons x xs ih =>
    rw [List.foldl_cons]
    rcases List.mem_cons.mp (ih (Max.max a x)) with h1 | h1
    · rw [h1]
      rcases max_choice a x with hm | hm <;> rw [hm] <;> simp
    · exact List.mem_cons_of_mem _ (List.mem_cons_of_mem _ h1)

lemma le_foldl_max (l : List ℚ) (a : ℚ) : ∀ x ∈ a :: l, x ≤ l.foldl Max.max a := by
  induction l generalizing a with
  | nil =>
    intro x hx
    simp at hx
    simp [hx]
  | cons y ys ih =>
    intro x hx
    rw [List.foldl_cons]
    rcases List.mem_cons.mp hx with h1 | h1
    · subst h1
      exact le_trans (le_max_left x y) (ih (Max.max x y) _ (List.mem_cons_self _ _))
    · rcases List.mem_cons.mp h1 with h2 | h2
      · subst h2
        exact le_trans (le_max_right a x) (ih _ _ (List.mem_cons_self _ _))
      · exact ih (Max.max a y) x (List.mem_cons_of_mem _ h2)

lemma foldl_min_mem (l : List ℚ) (a : ℚ) : l.foldl Min.min a ∈ a :: l := by
  induction l generalizing a with
  | nil => simp
  | cons x xs ih =>
    rw [List.foldl_cons]
    rcases List.mem_cons.mp (ih (Min.min a x)) with h1 | h1
    · rw [h1]
      rcases min_choice a x with hm | hm <;> rw [hm] <;> simp
    · exact List.mem_cons_of_mem _ (List.mem_cons_of_mem _ h1)

lemma foldl_min_le (l : List ℚ) (a : ℚ) : ∀ x ∈ a :: l, l.foldl Min.min a ≤ x := by
  induction l generalizing a with
  | nil =>
    intro x hx
    simp at hx
    simp [hx]
  | cons y ys ih =>
    intro x hx
    rw [List.foldl_cons]
    rcases List.mem_cons.mp hx with h1 | h1
    · subst h1
      exact le_trans (ih (Min.min x y) _ (List.mem_cons_self _ _)) (min_le_left x y)
    · rcases List.mem_cons.mp h1 with h2 | h2
      · subst h2
        exact le_trans (ih _ _ (List.mem_cons_self _ _)) (min_le_right a x)
      · exact ih (Min.min a y) x (List.mem_cons_of_mem _ h2)

/-- C9: a report filter other than "all" retrieves exactly the
evaluations of that category; per-category statistics are the count,
the average (sum over count), the maximum and the minimum of the
category's scores, and a category with no evaluations reports all
zeroes. -/
theorem C9_reports :
    (∀ ledger f, f ≠ "all" → ∀ e, e ∈ admin_reports_evaluations ledger f ↔
      (e ∈ ledger ∧ e.category = f)) ∧
    (∀ ledger cat, ledger.filter (fun e => e.category == cat) = [] →
      categoryStats ledger cat = ⟨0, 0, 0, 0⟩) ∧
    (∀ ledger cat evs, ledger.filter (fun e => e.category == cat) = evs →
      evs ≠ [] →
      (categoryStats ledger cat).count = evs.length ∧
      (categoryStats ledger cat).avg =
        (evs.map Evaluation.score).sum / (evs.length : ℚ) ∧
      (categoryStats ledger cat).max ∈ evs.map Evaluation.score ∧
      (∀ x ∈ evs.map Evaluation.score, x ≤ (categoryStats ledger cat).max) ∧
      (categoryStats ledger cat).min ∈ evs.map Evaluation.score ∧
      (∀ x ∈ evs.map Evaluation.score, (categoryStats ledger cat).min ≤ x)) := by
  refine ⟨?_, ?_, ?_⟩
  · intro ledger f hne e
    unfold admin_reports_evaluations
    have hb : (f == "all") = false := by simpa using hne
    rw [hb]
    simp [List.mem_filter]
  · intro ledger cat h
    unfold categoryStats
    rw [h]
  · intro ledger cat evs hfil hne
    cases evs with
    | nil => exact absurd rfl hne
    | cons e es =>
      unfold categoryStats
      rw [hfil]
      refine ⟨rfl, by simp, ?_, ?_, ?_, ?_⟩
      · exact foldl_max_mem (es.map Evaluation.score) e.score
      · intro x hx
        exact le_foldl_max (es.map Evaluation.score) e.score x hx
      · exact foldl_min_mem (es.map Evaluation.score) e.score
      · intro x hx
        exact foldl_min_le (es.map Evaluation.score) e.score x hx

/-- Witness for C9: the filter clause at a concrete ledger and filter. -/
theorem C9_witness :
    (⟨"S1", 7, "robo_sumo", 15, 20, [], ""⟩ : Evaluation) ∈
        admin_reports_evaluations [⟨"S1", 7, "robo_sumo", 15, 20, [], ""⟩] "robo_sumo" ↔
      ((⟨"S1", 7, "robo_sumo", 15, 20, [], ""⟩ : Evaluation) ∈
          ([⟨"S1", 7, "robo_sumo", 15, 20, [], ""⟩] : List Evaluation) ∧
        (⟨"S1", 7, "robo_sumo", 15, 20, [], ""⟩ : Evaluation).category = "robo_sumo") :=
  C9_reports.1 _ "robo_sumo" (by decide) _

lemma processRow_counts (st : ImportState) (row : ImportRow) :
    (processRow st row).added + (processRow st row).skipped +
      (processRow st row).duplicates =
      st.added + st.skipped + st.duplicates + 1 := by
  unfold processRow
  split
  · simp
    omega
  · split
    · simp
      omega
    · split
      · simp
        omega
      · split
        · simp
          omega
        · split
          · simp
            omega
          · simp
            omega

lemma importLoop_counts : ∀ (rows : List ImportRow) (st : ImportState),
    (importLoop st rows).added + (importLoop st rows).skipped +
      (importLoop st rows).duplicates =
      st.added + st.skipped + st.duplicates + rows.length := by
  intro rows
  induction rows with
  | nil => intro st; simp [importLoop]
  | cons r rs ih =>
    intro st
    have h1 := processRow_counts st r
    have h2 := ih (processRow st r)
    simp only [importLoop] at h2 ⊢
    rw [h2, h1]
    simp
    omega

lemma processRow_raises (st : ImportState) (row : ImportRow)
    (h : row.raises = true) :
    processRow st row = { st with pending := [], skipped := st.skipped + 1 } := by
  unfold processRow
  rw [h]
  simp

/-- C7: no row aborts the batch — each processed row bumps exactly one
of the three counters, a full import reports counts accounting for every
row of the sheet, and a row whose processing raises an unexpected
exception is counted as skipped (after a rollback) and the loop
continues with the remaining rows. -/
theorem C7_no_row_aborts_batch :
    (∀ st row, (processRow st row).added + (processRow st row).skipped +
      (processRow st row).duplicates =
      st.added + st.skipped + st.duplicates + 1) ∧
    (∀ registry rows, (admin_students registry rows).added +
      (admin_students registry rows).skipped +
      (admin_students registry rows).duplicates = rows.length) ∧
    (∀ st row rest, row.raises = true →
      importLoop st (row :: rest) =
        importLoop { st with pending := [], skipped := st.skipped + 1 } rest) := by
  refine ⟨processRow_counts, ?_, ?_⟩
  · intro registry rows
    have h := importLoop_counts rows ⟨registry, [], 0, 0, 0⟩
    simpa [admin_students] using h
  · intro st row rest h
    simp only [importLoop, processRow_raises st row h]

/-- Witness for C7: the exception clause at a concrete state and row. -/
theorem C7_witness :
    importLoop (⟨[], [], 0, 0, 0⟩ : ImportState)
        [⟨[some "S001", some "Jane"], true⟩] =
      importLoop ({ (⟨[], [], 0, 0, 0⟩ : ImportState) with
        pending := [], skipped := 0 + 1 }) [] :=
  C7_no_row_aborts_batch.2.2 ⟨[], [], 0, 0, 0⟩ ⟨[some "S001", some "Jane"], true⟩ []
    rfl

lemma processRow_pending_bound (st : ImportState) (row : ImportRow)
    (h : st.pending.length ≤ st.added % 10) :
    (processRow st row).pending.length ≤ (processRow st row).added % 10 := by
  unfold processRow
  split
  · simp
  · split
    · simpa using h
    · split
      · simpa using h
      · split
        · simpa using h
        · split
          · simp
          · rename_i hmod
            have hm : (st.added + 1) % 10 ≠ 0 := by simpa using hmod
            simp
            omega

lemma importLoop_pending_bound : ∀ (rows : List ImportRow) (st : ImportState),
    st.pending.length ≤ st.added % 10 →
    (importLoop st rows).pending.length ≤ (importLoop st rows).added % 10 := by
  intro rows
  induction rows with
  | nil => intro st h; simpa [importLoop] using h
  | cons r rs ih =>
    intro st h
    simp only [importLoop]
    exact ih (processRow st r) (processRow_pending_bound st r h)

/-- C10: an unexpected row failure triggers `rollback()`, which discards
the records pending since the most recent periodic commit while the
`added` counter keeps counting them; at most 9 records can be pending at
a row boundary (commits fire when `added` is a multiple of 10), the
discarded records are not re-inserted, and the reported `added` count
can exceed the number of records actually persisted — concretely, one
valid row followed by a failing row reports `added = 1` yet persists no
record. -/
theorem C10_rollback_discards_pending :
    (∀ st row, row.raises = true →
      processRow st row = { st with pending := [], skipped := st.skipped + 1 }) ∧
    (∀ registry rows,
      (importLoop ⟨registry, [], 0, 0, 0⟩ rows).pending.length ≤ 9) ∧
    ((admin_students [] [⟨[some "S001", some "Jane"], false⟩,
        ⟨[some "S002", some "Bob"], true⟩]).added = 1 ∧
      (admin_students [] [⟨[some "S001", some "Jane"], false⟩,
        ⟨[some "S002", some "Bob"], true⟩]).committed = []) := by
  refine ⟨?_, ?_, by decide, by decide⟩
  · intro st row h
    unfold processRow
    rw [h]
    simp
  · intro registry rows
    have h := importLoop_pending_bound rows ⟨registry, [], 0, 0, 0⟩ (by simp)
    omega

/-- Witness for C10: the rollback clause at a concrete state and row. -/
theorem C10_witness :
    processRow ⟨[], [⟨"S001", "Jane", "", "", none⟩], 1, 0, 0⟩
        ⟨[some "S002", some "Bob"], true⟩ =
      { (⟨[], [⟨"S001", "Jane", "", "", none⟩], 1, 0, 0⟩ : ImportState) with
        pending := [], skipped := 0 + 1 } :=
  C10_rollback_discards_pending.1 ⟨[], [⟨"S001", "Jane", "", "", none⟩], 1, 0, 0⟩
    ⟨[some "S002", some "Bob"], true⟩ rfl

lemma staff_evaluate_preserves (students : List Student) (ledger : List Evaluation)
    (sub : Submission) (h1 : atMostOnePerPair ledger)
    (h2 : ledgerConsistent students ledger) :
    atMostOnePerPair (staff_evaluate students ledger sub).2 ∧
    ledgerConsistent students (staff_evaluate students ledger sub).2 := by
  unfold staff_evaluate
  cases hf : students.find? (fun s => s.student_id == sub.student_id) with
  | none => exact ⟨h1, h2⟩
  | some s =>
    by_cases hc : (s.category == some sub.category) = true
    · simp only [hc, if_true]
      by_cases ha : (ledger.any fun e => e.student_id == sub.student_id &&
          e.category == sub.category) = true
      · simp only [ha, if_true]
        exact ⟨h1, h2⟩
      · have ha' : (ledger.any fun e => e.student_id == sub.student_id &&
            e.category == sub.category) = false := by simpa using ha
        simp only [ha', Bool.false_eq_true, if_false]
        constructor
        · unfold atMostOnePerPair at h1 ⊢
          rw [List.pairwise_append]
          refine ⟨h1, List.pairwise_singleton _ _, ?_⟩
          intro a hal b hbl hcon
          simp only [List.mem_singleton] at hbl
          subst hbl
          apply ha
          refine List.any_eq_true.mpr ⟨a, hal, ?_⟩
          simp [hcon.1, hcon.2]
        · intro e he
          rw [List.mem_append] at he
          rcases he with he | he
          · exact h2 e he
          · simp only [List.mem_singleton] at he
            subst he
            refine ⟨s, List.mem_of_find?_eq_some hf, ?_, ?_⟩
            · simpa using List.find?_some hf
            · simpa using hc
    · have hc' : (s.category == some sub.category) = false := by simpa using hc
      simp only [hc', Bool.false_eq_true, if_false]
      cases s.category with
      | none => exact ⟨h1, h2⟩
      | some c => exact ⟨h1, h2⟩

lemma runSubmissions_preserves (students : List Student) :
    ∀ (subs : List Submission) (ledger : List Evaluation),
    atMostOnePerPair ledger → ledgerConsistent students ledger →
    atMostOnePerPair (runSubmissions students ledger subs) ∧
    ledgerConsistent students (runSubmissions students ledger subs) := by
  intro subs
  induction subs with
  | nil => intro ledger h1 h2; exact ⟨h1, h2⟩
  | cons sub rest ih =>
    intro ledger h1 h2
    have h := staff_evaluate_preserves students ledger sub h1 h2
    exact ih _ h.1 h.2

lemma staff_evaluate_already (students : List Student) (ledger : List Evaluation)
    (sub : Submission) (hnodup : (students.map Student.student_id).Nodup)
    (hcons : ledgerConsistent students ledger)
    (hex : ∃ e ∈ ledger, e.student_id = sub.student_id ∧ e.category = sub.category) :
    staff_evaluate students ledger sub = (.alreadyEvaluated, ledger) := by
  obtain ⟨e, he, heid, hecat⟩ := hex
  obtain ⟨s, hsmem, hsid, hscat⟩ := hcons e he
  have hsome : (students.find? (fun t => t.student_id == sub.student_id)).isSome := by
    rw [List.find?_isSome]
    exact ⟨s, hsmem, by simp [hsid, heid]⟩
  obtain ⟨s', hf⟩ := Option.isSome_iff_exists.mp hsome
  have hs'id : s'.student_id = sub.student_id := by simpa using List.find?_some hf
  have heq : s' = s := by
    apply List.inj_on_of_nodup_map hnodup (List.mem_of_find?_eq_some hf) hsmem
    rw [hs'id, hsid, heid]
  have hcat : s'.category = some sub.category := by
    rw [heq, hscat, hecat]
  have hany : (ledger.any fun x => x.student_id == sub.student_id &&
      x.category == sub.category) = true :=
    List.any_eq_true.mpr ⟨e, he, by simp [heid, hecat]⟩
  unfold staff_evaluate
  rw [hf]
  simp [hcat, hany]

/-- C1: after any sequence of submissions over a fixed participant
registry, no two ledger records share the same (identifier, category)
pair; and — when participant identifiers are unique, as the registry's
unique constraint guarantees — a further submission for a pair that
already has an evaluation is rejected with AlreadyEvaluated and leaves
the ledger unchanged, irrespective of the submitting staff. -/
theorem C1_at_most_one_evaluation (students : List Student) (subs : List Submission) :
    atMostOnePerPair (runSubmissions students [] subs) ∧
    ((students.map Student.student_id).Nodup → ∀ sub,
      (∃ e ∈ runSubmissions students [] subs,
        e.student_id = sub.student_id ∧ e.category = sub.category) →
      staff_evaluate students (runSubmissions students [] subs) sub =
        (.alreadyEvaluated, runSubmissions students [] subs)) := by
  have hbase := runSubmissions_preserves students subs [] List.Pairwise.nil
    (by intro e he; simp at he)
  refine ⟨hbase.1, ?_⟩
  intro hnodup sub hex
  exact staff_evaluate_already students _ sub hnodup hbase.2 hex

/-- Witness for C1: a repeated submission for the same participant and
category is rejected with AlreadyEvaluated at a concrete input. -/
theorem C1_witness :
    staff_evaluate [⟨"S1", "Jane", "MIT", "555", some "robo_race"⟩]
        (runSubmissions [⟨"S1", "Jane", "MIT", "555", some "robo_race"⟩] []
          [⟨7, "robo_race", "S1", [], ""⟩])
        ⟨7, "robo_race", "S1", [], ""⟩ =
      (.alreadyEvaluated,
        runSubmissions [⟨"S1", "Jane", "MIT", "555", some "robo_race"⟩] []
          [⟨7, "robo_race", "S1", [], ""⟩]) :=
  (C1_at_most_one_evaluation _ _).2 (by decide) _ (by decide)

lemma validate_none_of_all_isNone (cells : List (Option String))
    (h : cells.all (fun c => c.isNone) = true) :
    validate_excel_data cells = none := by
  cases cells with
  | nil => rfl
  | cons c0 rest =>
    have hc0 : c0 = none := by
      rw [List.all_cons] at h
      exact Option.eq_none_of_isNone (Bool.and_elim_left h)
    subst hc0
    unfold validate_excel_data
    split
    · rfl
    · simp

lemma processRow_visible (st : ImportState) (row : ImportRow)
    (h : row.raises = false) :
    (processRow st row).visible = st.visible ∨
    ∃ d, validate_excel_data row.cells = some d ∧
      (processRow st row).visible = st.visible ++ [d] := by
  unfold processRow
  simp only [h, Bool.false_eq_true, if_false]
  split
  · left; rfl
  · split
    · left; rfl
    · rename_i data heq
      split
      · left; rfl
      · split
        · right
          exact ⟨data, heq, by simp [ImportState.visible]⟩
        · right
          exact ⟨data, heq, by simp [ImportState.visible]⟩

lemma processRow_hasStudent (st : ImportState) (row : ImportRow) (x : String)
    (h : row.raises = false) (hx : st.hasStudent x = true) :
    (processRow st row).hasStudent x = true := by
  unfold ImportState.hasStudent at hx ⊢
  rcases processRow_visible st row h with hv | ⟨d, _, hv⟩ <;> rw [hv]
  · exact hx
  · simp only [List.any_append, hx, Bool.true_or]

lemma importLoop_hasStudent : ∀ (rows : List ImportRow) (st : ImportState)
    (x : String), (∀ r ∈ rows, r.raises = false) →
    st.hasStudent x = true → (importLoop st rows).hasStudent x = true := by
  intro rows
  induction rows with
  | nil => intro st x _ hx; exact hx
  | cons a rs ih =>
    intro st x hnr hx
    simp only [importLoop]
    exact ih (processRow st a) x
      (fun r hr => hnr r (List.mem_cons_of_mem _ hr))
      (processRow_hasStudent st a x (hnr a (List.mem_cons_self _ _)) hx)

lemma processRow_adds_id (st : ImportState) (row : ImportRow) (d : Student)
    (h : row.raises = false) (hv : validate_excel_data row.cells = some d) :
    (processRow st row).hasStudent d.student_id = true := by
  have hne : (row.cells.all fun c => c.isNone) = false := by
    cases hh : (row.cells.all fun c => c.isNone)
    · rfl
    · rw [validate_none_of_all_isNone row.cells hh] at hv
      exact absurd hv (by simp)
  unfold processRow
  simp only [h, Bool.false_eq_true, if_false, hne, hv]
  split
  · rename_i hdup
    exact hdup
  · split <;>
      simp [ImportState.hasStudent, ImportState.visible, List.any_append]

lemma importLoop_valid_ids : ∀ (rows : List ImportRow) (st : ImportState),
    (∀ r ∈ rows, r.raises = false) →
    ∀ r ∈ rows, ∀ d, validate_excel_data r.cells = some d →
    (importLoop st rows).hasStudent d.student_id = true := by
  intro rows
  induction rows with
  | nil => intro st _ r hr; cases hr
  | cons a rs ih =>
    intro st hnr r hr d hv
    rcases List.mem_cons.mp hr with rfl | hr'
    · simp only [importLoop]
      exact importLoop_hasStudent rs (processRow st r) d.student_id
        (fun x hx => hnr x (List.mem_cons_of_mem _ hx))
        (processRow_adds_id st r d (hnr r (List.mem_cons_self _ _)) hv)
    · simp only [importLoop]
      exact ih (processRow st a) (fun x hx => hnr x (List.mem_cons_of_mem _ hx))
        r hr' d hv

lemma importLoop_all_existing : ∀ (rows : List ImportRow) (st : ImportState),
    (∀ r ∈ rows, r.raises = false) →
    (∀ r ∈ rows, ∀ d, validate_excel_data r.cells = some d →
      st.hasStudent d.student_id = true) →
    importLoop st rows = { st with
      skipped := st.skipped + rows.countP (fun r => !r.isValid),
      duplicates := st.duplicates + validCount rows } := by
  intro rows
  induction rows with
  | nil => intro st _ _; simp [importLoop, validCount]
  | cons a rs ih =>
    intro st hnr hex
    have hAraises : a.raises = false := hnr a (List.mem_cons_self _ _)
    have hnr' : ∀ r ∈ rs, r.raises = false :=
      fun r hr => hnr r (List.mem_cons_of_mem _ hr)
    simp only [importLoop]
    cases hval : validate_excel_data a.cells with
    | none =>
      have hAvalid : a.isValid = false := by
        simp [ImportRow.isValid, hval]
      have hstep : processRow st a = { st with skipped := st.skipped + 1 } := by
        unfold processRow
        simp only [hAraises, Bool.false_eq_true, if_false]
        split
        · rfl
        · rw [hval]
      rw [hstep]
      have hex' : ∀ r ∈ rs, ∀ d, validate_excel_data r.cells = some d →
          ({ st with skipped := st.skipped + 1 } : ImportState).hasStudent
            d.student_id = true := by
        intro r hr d hd
        have := hex r (List.mem_cons_of_mem _ hr) d hd
        simpa [ImportState.hasStudent, ImportState.visible] using this
      rw [ih _ hnr' hex']
      simp [List.countP_cons, validCount, hAvalid, ImportState.mk.injEq] <;> omega
    | some d =>
      have hAvalid : a.isValid = true := by
        simp [ImportRow.isValid, hval]
      have hdup : st.hasStudent d.student_id = true :=
        hex a (List.mem_cons_self _ _) d hval
      have hne : (a.cells.all fun c => c.isNone) = false := by
        cases hh : (a.cells.all fun c => c.isNone)
        · rfl
        · rw [validate_none_of_all_isNone a.cells hh] at hval
          exact absurd hval (by simp)
      have hstep : processRow st a = { st with duplicates := st.duplicates + 1 } := by
        unfold processRow
        simp only [hAraises, Bool.false_eq_true, if_false, hne]
        rw [hval]
        simp only [hdup, if_true]
      rw [hstep]
      have hex' : ∀ r ∈ rs, ∀ d2, validate_excel_data r.cells = some d2 →
          ({ st with duplicates := st.duplicates + 1 } : ImportState).hasStudent
            d2.student_id = true := by
        intro r hr d2 hd
        have := hex r (List.mem_cons_of_mem _ hr) d2 hd
        simpa [ImportState.hasStudent, ImportState.visible] using this
      rw [ih _ hnr' hex']
      simp [List.countP_cons, validCount, hAvalid, ImportState.mk.injEq] <;> omega

lemma admin_students_committed (registry : List Student) (rows : List ImportRow) :
    (admin_students registry rows).committed =
      (importLoop ⟨registry, [], 0, 0, 0⟩ rows).visible := rfl

/-- C5: re-importing the same sheet (with no unexpected row failures)
after a first import adds zero records and leaves the registry
unchanged: every row that validates finds its identifier already present
and is counted as a duplicate, and every other row is counted as
skipped. -/
theorem C5_reimport_adds_nothing (registry : List Student) (rows : List ImportRow)
    (hnr : ∀ r ∈ rows, r.raises = false) :
    (admin_students (admin_students registry rows).committed rows).added = 0 ∧
    (admin_students (admin_students registry rows).committed rows).committed =
      (admin_students registry rows).committed ∧
    (admin_students (admin_students registry rows).committed rows).duplicates =
      validCount rows ∧
    (admin_students (admin_students registry rows).committed rows).skipped =
      rows.countP (fun r => !r.isValid) := by
  have hids := importLoop_valid_ids rows ⟨registry, [], 0, 0, 0⟩ hnr
  have hex : ∀ r ∈ rows, ∀ d, validate_excel_data r.cells = some d →
      (⟨(admin_students registry rows).committed, [], 0, 0, 0⟩ : ImportState).hasStudent
        d.student_id = true := by
    intro r hr d hd
    have := hids r hr d hd
    rw [admin_students_committed]
    simpa [ImportState.hasStudent, ImportState.visible] using this
  have hrun := importLoop_all_existing rows
    ⟨(admin_students registry rows).committed, [], 0, 0, 0⟩ hnr hex
  constructor
  · show (importLoop ⟨(admin_students registry rows).committed, [], 0, 0, 0⟩
      rows).added = 0
    rw [hrun]
  constructor
  · show (importLoop ⟨(admin_students registry rows).committed, [], 0, 0, 0⟩
        rows).committed ++ (importLoop ⟨(admin_students registry rows).committed,
        [], 0, 0, 0⟩ rows).pending = (admin_students registry rows).committed
    rw [hrun]
    simp
  constructor
  · show (importLoop ⟨(admin_students registry rows).committed, [], 0, 0, 0⟩
      rows).duplicates = validCount rows
    rw [hrun]
    simp
  · show (importLoop ⟨(admin_students registry rows).committed, [], 0, 0, 0⟩
      rows).skipped = rows.countP (fun r => !r.isValid)
    rw [hrun]
    simp

/-- Witness for C5: re-importing a one-row sheet adds nothing and counts
the row as a duplicate. -/
theorem C5_witness :
    (admin_students (admin_students []
      [⟨[some "S001", some "Jane"], false⟩]).committed
      [⟨[some "S001", some "Jane"], false⟩]).added = 0 ∧
    (admin_students (admin_students []
      [⟨[some "S001", some "Jane"], false⟩]).committed
      [⟨[some "S001", some "Jane"], false⟩]).committed =
      (admin_students [] [⟨[some "S001", some "Jane"], false⟩]).committed ∧
    (admin_students (admin_students []
      [⟨[some "S001", some "Jane"], false⟩]).committed
      [⟨[some "S001", some "Jane"], false⟩]).duplicates =
      validCount [⟨[some "S001", some "Jane"], false⟩] ∧
    (admin_students (admin_students []
      [⟨[some "S001", some "Jane"], false⟩]).committed
      [⟨[some "S001", some "Jane"], false⟩]).skipped =
      List.countP (fun (r : ImportRow) => !r.isValid)
        [⟨[some "S001", some "Jane"], false⟩] :=
  C5_reimport_adds_nothing [] [⟨[some "S001", some "Jane"], false⟩]
    (by intro r hr; simp at hr; rw [hr])

end App
